import Mathlib

/-!
Shallow embedding of the MCTP dissector (`epan/dissectors/packet-mctp.c`,
function `dissect_mctp`) and proofs about it.

Bytes are modelled as `Nat` (inputs are byte lists; the dissector only ever
masks them with `&&&`, so no overflow arises).  A packet buffer (`tvbuff_t`)
is a `List Nat` of its captured bytes; in this model the reported length and
the captured length coincide (the fully-captured case).

The generic reassembly machinery (`fragment_add_seq_next` /
`process_reassembled_data` from `epan/reassemble.c`) is not part of the
source under verification; it is modelled from the spec (section 4.2), as a
mapping from flow keys to the list of fragment payloads accumulated in
arrival order.  Crucially, the model is a function of exactly the arguments
the dissector passes to it: the source and destination addresses published
in `pinfo`, the fragment id (the dissector passes `fst & 0x7`), the payload
bytes, and the `more_frags` flag (the dissector passes `!(fst & 0x40)`,
i.e. "end of message not set").  The start-of-message flag is not among
those arguments, so the engine cannot observe it.
-/

namespace MCTP

/-- `MCTP_MIN_LENGTH`: 4-byte header, plus message type. -/
def MCTP_MIN_LENGTH : Nat := 5

/-- A reassembly flow key: the key material handed to the reassembly table,
namely the two addresses published in `pinfo` (`dl_src` is header byte 2,
`dl_dst` is header byte 1) and the fragment id argument. -/
structure FlowKey where
  src : Nat
  dst : Nat
  id : Nat
deriving DecidableEq, Repr

/-- The mapping from flow keys to in-progress reassembly state: the list of
fragment payloads accumulated so far, in arrival order.  `[]` means no
active reassembly for that key. -/
abbrev ReassemblyTable : Type := FlowKey → List (List Nat)

/-- The table with no active reassembly on any key. -/
def emptyTable : ReassemblyTable := fun _ => []

/-- Modelled from the spec: `fragment_add_seq_next` together with
`process_reassembled_data` (`epan/reassemble.c`, absent from the sources
under verification).  Per spec section 4.2 the engine maintains a mapping
from flow key to reassembly state, looks up or creates the state for the
key, appends the payload in arrival order (the 2-bit wire sequence number
is not an argument and plays no role), and, when `more_frags` is false,
completes: it concatenates the stored payloads in arrival order, removes
the state from the mapping, and returns the reconstructed message.  The
model depends on exactly the arguments the call site passes. -/
def fragment_add_seq_next (table : ReassemblyTable) (src dst id : Nat)
    (payload : List Nat) (more_frags : Bool) :
    ReassemblyTable × Option (List Nat) :=
  let key : FlowKey := ⟨src, dst, id⟩
  let frags := table key ++ [payload]
  if more_frags then
    (fun k => if k = key then frags else table k, none)
  else
    (fun k => if k = key then [] else table k, some frags.flatten)

/-- Everything `dissect_mctp` produces on one packet, besides display-tree
side effects: the return value (bytes consumed), whether the packet was
reported malformed (the two `col_add_fstr` error paths), the reassembly
table afterwards, the dispatch performed (`dissector_try_uint_new` call:
the looked-up type code and the buffer handed over), and the published
port pair. -/
structure DissectResult where
  ret : Nat
  malformed : Bool
  table : ReassemblyTable
  dispatched : Option (Nat × List Nat)
  srcport : Option Nat
  destport : Option Nat

/-- Shallow embedding of `dissect_mctp` (packet-mctp.c lines 100-219).
Mirrors the source: length check against `MCTP_MIN_LENGTH` on the reported
length; version = `tvb_get_bits8(tvb, 4, 4)` (the low nibble of byte 0)
must be 1; addresses are byte 1 (destination) and byte 2 (source);
`fst` is byte 3, `tag = fst & 0x0f`; ports are `srcport = tag`,
`destport = tag ^ 0x08`; if `(fst & 0xc0) != 0xc0` the packet is a
fragment handed to `fragment_add_seq_next` with id `fst & 0x7`, payload
the bytes from offset 4, and `more_frags = !(fst & 0x40)`; otherwise the
bytes from offset 4 flow directly to dispatch.  Dispatch reads byte 0 of
the complete message and calls the sub-dissector for `type & 0x7f` with
that same buffer.  Every return path returns `tvb_captured_length`. -/
def dissect_mctp (table : ReassemblyTable) (tvb : List Nat) : DissectResult :=
  let len := tvb.length
  if len < MCTP_MIN_LENGTH then
    { ret := len, malformed := true, table := table,
      dispatched := none, srcport := none, destport := none }
  else
    let ver := (tvb.getD 0 0) &&& 0x0f
    if ver ≠ 1 then
      { ret := len, malformed := true, table := table,
        dispatched := none, srcport := none, destport := none }
    else
      let dst := tvb.getD 1 0
      let src := tvb.getD 2 0
      let fst := tvb.getD 3 0
      let tag := fst &&& 0x0f
      let payload := tvb.drop 4
      if (fst &&& 0xc0) ≠ 0xc0 then
        let step := fragment_add_seq_next table src dst (fst &&& 0x7)
          payload ((fst &&& 0x40) == 0)
        { ret := len, malformed := false, table := step.1,
          dispatched := step.2.map (fun m => ((m.getD 0 0) &&& 0x7f, m)),
          srcport := some tag, destport := some (tag ^^^ 0x08) }
      else
        { ret := len, malformed := false, table := table,
          dispatched := some ((payload.getD 0 0) &&& 0x7f, payload),
          srcport := some tag, destport := some (tag ^^^ 0x08) }

/-- Process a capture: feed the packets to `dissect_mctp` in order,
threading the reassembly table, and collect the dispatches performed. -/
def processPackets (table : ReassemblyTable) (tvbs : List (List Nat)) :
    ReassemblyTable × List (Nat × List Nat) :=
  match tvbs with
  | [] => (table, [])
  | tvb :: rest =>
    let r := dissect_mctp table tvb
    let tail := processPackets r.table rest
    (tail.1, r.dispatched.toList ++ tail.2)

/-- The packet is long enough and carries version 1: the two early-return
checks of `dissect_mctp` pass. -/
def accepted (tvb : List Nat) : Prop :=
  MCTP_MIN_LENGTH ≤ tvb.length ∧ (tvb.getD 0 0) &&& 0x0f = 1

instance (tvb : List Nat) : Decidable (accepted tvb) := by
  unfold accepted; infer_instance

/-- The flow key a packet is correlated under, when it is handled as a
fragment: an accepted packet whose flags byte does not have both the SOM
bit (0x80) and the EOM bit (0x40) set is handed to the reassembly engine
under key (source = byte 2, destination = byte 1, id = byte 3 & 0x7). -/
def fragKey (tvb : List Nat) : Option FlowKey :=
  if accepted tvb ∧ ((tvb.getD 3 0) &&& 0xc0) ≠ 0xc0 then
    some ⟨tvb.getD 2 0, tvb.getD 1 0, (tvb.getD 3 0) &&& 0x7⟩
  else
    none

/-- The decoded MCTP transport header (spec section 3). -/
structure Header where
  ver : Nat
  dst : Nat
  src : Nat
  som : Bool
  eom : Bool
  seq : Nat
  tag_to : Bool
  tag : Nat
deriving DecidableEq, Repr

/-- Header field extraction exactly as the dissector performs it:
`ver = tvb_get_bits8(tvb, 4, 4)` (low nibble of byte 0), destination is
byte 1, source is byte 2, and the byte-3 fields use the registered masks
0x80 (SOM), 0x40 (EOM), 0x30 shifted (sequence), 0x08 (tag owner),
0x07 (tag value). -/
def decodeHeader (tvb : List Nat) : Header :=
  { ver := (tvb.getD 0 0) &&& 0x0f
    dst := tvb.getD 1 0
    src := tvb.getD 2 0
    som := (tvb.getD 3 0) &&& 0x80 != 0
    eom := (tvb.getD 3 0) &&& 0x40 != 0
    seq := ((tvb.getD 3 0) &&& 0x30) >>> 4
    tag_to := (tvb.getD 3 0) &&& 0x08 != 0
    tag := (tvb.getD 3 0) &&& 0x07 }

/-- Byte 3 of the wire encoding per spec section 6: bit 7 = SOM, bit 6 =
EOM, bits 5-4 = sequence, bit 3 = tag owner, bits 2-0 = tag value. -/
def encodeFlagsByte (som eom : Bool) (seq : Nat) (owner : Bool) (tag : Nat) : Nat :=
  (cond som 0x80 0) ||| (cond eom 0x40 0) ||| ((seq &&& 0x3) <<< 4) |||
    (cond owner 0x08 0) ||| (tag &&& 0x07)

/-- Re-encoding of the decoded header fields per the wire layout of spec
section 6.  Byte 0 bits 7-4 are reserved and carry no decoded field, so
they are emitted as zero; bits 3-0 carry the version. -/
def encodeHeader (h : Header) : List Nat :=
  [h.ver &&& 0x0f, h.dst &&& 0xff, h.src &&& 0xff,
   encodeFlagsByte h.som h.eom h.seq h.tag_to h.tag]

/-- Example flow key, tables and packets used in concrete witnesses. -/
def keyA : FlowKey := ⟨0x09, 0x08, 0⟩

/-- A table holding one active partial payload `AA` on `keyA`. -/
def tblA : ReassemblyTable := fun j => if j = keyA then [[0xAA]] else []

/-- EOM-only fragment on `keyA`. -/
def pktEom : List Nat := [0x01, 0x08, 0x09, 0x40, 0x07, 0xEE]

/-- SOM-only fragment on `keyA`. -/
def pktSom : List Nat := [0x01, 0x08, 0x09, 0x80, 0xBB]

/-- EOM fragment on `keyA` carrying the payload `CC`. -/
def pktEnd : List Nat := [0x01, 0x08, 0x09, 0x40, 0xCC]

/-- The dispatches performed, over a run of the capture, by exactly those
packets handled as fragments of the flow key `k`. -/
def dispatchesForKey (k : FlowKey) (table : ReassemblyTable)
    (tvbs : List (List Nat)) : List (Nat × List Nat) :=
  match tvbs with
  | [] => []
  | tvb :: rest =>
    let r := dissect_mctp table tvb
    (if fragKey tvb = some k then r.dispatched.toList else []) ++
      dispatchesForKey k r.table rest


/-- Claim C3: on a packet whose flags byte has both the start-of-message
bit (0x80) and the end-of-message bit (0x40) set, `dissect_mctp` leaves
the reassembly mapping completely unchanged, reports no error, and
dispatches the payload (the buffer minus its first 4 bytes) immediately,
in the same processing step. -/
theorem C3_self_contained_direct_dispatch (t : ReassemblyTable) (tvb : List Nat)
    (hacc : accepted tvb) (hfl : (tvb.getD 3 0) &&& 0xc0 = 0xc0) :
    (dissect_mctp t tvb).table = t ∧
    (dissect_mctp t tvb).dispatched =
      some (((tvb.drop 4).getD 0 0) &&& 0x7f, tvb.drop 4) ∧
    (dissect_mctp t tvb).malformed = false := by
  obtain ⟨hlen, hver⟩ := hacc
  unfold dissect_mctp
  simp only [List.getD_eq_getElem?_getD] at hver hfl ⊢
  simp [Nat.not_lt.mpr hlen, hver, hfl]

/-- Witness for C3 on the worked example of the spec (section 8):
`11 08 09 C0 01 AA BB`. -/
theorem C3_self_contained_direct_dispatch_witness :
    (dissect_mctp emptyTable [0x11, 0x08, 0x09, 0xC0, 0x01, 0xAA, 0xBB]).table
      = emptyTable ∧
    (dissect_mctp emptyTable [0x11, 0x08, 0x09, 0xC0, 0x01, 0xAA, 0xBB]).dispatched
      = some ((([0x01, 0xAA, 0xBB] : List Nat).getD 0 0) &&& 0x7f,
              ([0x11, 0x08, 0x09, 0xC0, 0x01, 0xAA, 0xBB] : List Nat).drop 4) ∧
    (dissect_mctp emptyTable [0x11, 0x08, 0x09, 0xC0, 0x01, 0xAA, 0xBB]).malformed
      = false :=
  C3_self_contained_direct_dispatch emptyTable
    [0x11, 0x08, 0x09, 0xC0, 0x01, 0xAA, 0xBB] (by decide) (by decide)

/-- Claim C5: on a buffer shorter than `MCTP_MIN_LENGTH`, or one whose
version nibble (byte 0, bits 3-0) is not 1, `dissect_mctp` reports a
malformed header, performs no dispatch, and leaves the reassembly mapping
untouched; processing of subsequent packets is exactly as if the malformed
packet had not been presented at all. -/
theorem C5_malformed_header_stops_packet (t : ReassemblyTable) (tvb : List Nat)
    (rest : List (List Nat))
    (h : tvb.length < MCTP_MIN_LENGTH ∨ (tvb.getD 0 0) &&& 0x0f ≠ 1) :
    (dissect_mctp t tvb).malformed = true ∧
    (dissect_mctp t tvb).dispatched = none ∧
    (dissect_mctp t tvb).table = t ∧
    processPackets t (tvb :: rest) = processPackets t rest := by
  have hstep : dissect_mctp t tvb =
      { ret := tvb.length, malformed := true, table := t,
        dispatched := none, srcport := none, destport := none } := by
    rcases h with h | h
    · unfold dissect_mctp; simp [h]
    · unfold dissect_mctp
      simp only [List.getD_eq_getElem?_getD] at h
      by_cases hlen : tvb.length < MCTP_MIN_LENGTH <;> simp [hlen, h]
  refine ⟨by rw [hstep], by rw [hstep], by rw [hstep], ?_⟩
  have hun : processPackets t (tvb :: rest) =
      ((processPackets (dissect_mctp t tvb).table rest).1,
       (dissect_mctp t tvb).dispatched.toList ++
         (processPackets (dissect_mctp t tvb).table rest).2) := rfl
  rw [hun, hstep]
  simp

/-- Witness for C5: a 4-byte buffer (no message-type byte). -/
theorem C5_malformed_header_stops_packet_witness :
    (dissect_mctp emptyTable [0x01, 0x08, 0x09, 0xC0]).malformed = true ∧
    (dissect_mctp emptyTable [0x01, 0x08, 0x09, 0xC0]).dispatched = none ∧
    (dissect_mctp emptyTable [0x01, 0x08, 0x09, 0xC0]).table = emptyTable ∧
    processPackets emptyTable ([0x01, 0x08, 0x09, 0xC0] :: [[0x42]]) =
      processPackets emptyTable [[0x42]] :=
  C5_malformed_header_stops_packet emptyTable [0x01, 0x08, 0x09, 0xC0]
    [[0x42]] (by decide)

/-- Counterexample to claim C8 as stated: the 4-byte buffer `00 00 00 00`
is malformed (too short), yet `dissect_mctp` returns 4, the full buffer
length, not a length strictly less than the buffer length. -/
theorem C8_counterexample :
    ([0, 0, 0, 0] : List Nat).length < MCTP_MIN_LENGTH ∧
    (dissect_mctp emptyTable [0, 0, 0, 0]).malformed = true ∧
    (dissect_mctp emptyTable [0, 0, 0, 0]).ret
      = ([0, 0, 0, 0] : List Nat).length ∧
    ¬ (dissect_mctp emptyTable [0, 0, 0, 0]).ret
      < ([0, 0, 0, 0] : List Nat).length := by
  refine ⟨by decide, by decide, by decide, by decide⟩

/-- Claim C8, amended: `dissect_mctp` returns the captured buffer length
on every input, well-formed or malformed (every return path of the source
is `return tvb_captured_length(tvb)`). -/
theorem C8_amended_returns_captured_length (t : ReassemblyTable)
    (tvb : List Nat) : (dissect_mctp t tvb).ret = tvb.length := by
  unfold dissect_mctp
  dsimp only
  repeat' split
  all_goals rfl

set_option maxRecDepth 4096 in
theorem encodeFlagsByte_decode : ∀ b, b < 256 →
    encodeFlagsByte ((b &&& 0x80) != 0) ((b &&& 0x40) != 0)
      ((b &&& 0x30) >>> 4) ((b &&& 0x08) != 0) (b &&& 0x07) = b := by
  decide

set_option maxRecDepth 4096 in
theorem low_nibble_one_of_high_nibble_zero : ∀ b, b < 256 →
    b &&& 0xf0 = 0 → b &&& 0x0f = 1 → b = 1 := by
  decide

theorem and_ff_of_lt (b : Nat) (h : b < 256) : b &&& 0xff = b := by
  have h1 : (0xff : Nat) = 2 ^ 8 - 1 := rfl
  rw [h1, Nat.and_pow_two_sub_one_eq_mod, Nat.mod_eq_of_lt h]

/-- Counterexample to claim C7 as stated: the header bytes `11 08 09 C0`
are accepted by the codec (version nibble = 1) but carry a nonzero
reserved upper nibble in byte 0, which no decoded field captures, so
decoding then re-encoding yields `01 08 09 C0`, not the original bytes. -/
theorem C7_counterexample :
    ((([0x11, 0x08, 0x09, 0xC0] : List Nat).getD 0 0) &&& 0x0f = 1) ∧
    encodeHeader (decodeHeader [0x11, 0x08, 0x09, 0xC0])
      = [0x01, 0x08, 0x09, 0xC0] ∧
    ([0x01, 0x08, 0x09, 0xC0] : List Nat) ≠ [0x11, 0x08, 0x09, 0xC0] := by
  refine ⟨by decide, by decide, by decide⟩

/-- Claim C7, amended: for every valid 4-byte wire header (version field
equal to 1) whose reserved upper nibble of byte 0 is zero, re-encoding the
decoded header fields per the wire layout of spec section 6 reproduces the
original 4 bytes byte-for-byte.  (The reserved nibble is carried by no
decoded field, so headers with a nonzero reserved nibble cannot round-trip;
all other 28 header bits always do.) -/
theorem C7_amended_header_roundtrip (b0 b1 b2 b3 : Nat)
    (hb0 : b0 < 256) (hb1 : b1 < 256) (hb2 : b2 < 256) (hb3 : b3 < 256)
    (hres : b0 &&& 0xf0 = 0) (hver : b0 &&& 0x0f = 1) :
    encodeHeader (decodeHeader [b0, b1, b2, b3]) = [b0, b1, b2, b3] := by
  have e0 : b0 = 1 := low_nibble_one_of_high_nibble_zero b0 hb0 hres hver
  subst e0
  have e3 := encodeFlagsByte_decode b3 hb3
  simp only [decodeHeader, encodeHeader, List.getD_cons_zero,
    List.getD_cons_succ]
  rw [and_ff_of_lt b1 hb1, and_ff_of_lt b2 hb2, e3,
    show (1 &&& 15 &&& 15 : Nat) = 1 from rfl]

/-- Witness for C7 (amended) on the header bytes `01 08 09 C0`. -/
theorem C7_amended_header_roundtrip_witness :
    encodeHeader (decodeHeader [0x01, 0x08, 0x09, 0xC0])
      = [0x01, 0x08, 0x09, 0xC0] :=
  C7_amended_header_roundtrip 0x01 0x08 0x09 0xC0 (by decide) (by decide)
    (by decide) (by decide) (by decide) (by decide)

/-- Counterexample to claim C9 as stated: the packet `01 08 09 C8 05` is
accepted, its 3-bit tag value is 0, yet the published source port is 8
(the full 4-bit tag field, tag-owner bit included), not the tag value. -/
theorem C9_counterexample :
    accepted [0x01, 0x08, 0x09, 0xC8, 0x05] ∧
    (([0x01, 0x08, 0x09, 0xC8, 0x05] : List Nat).getD 3 0) &&& 0x07 = 0 ∧
    (dissect_mctp emptyTable [0x01, 0x08, 0x09, 0xC8, 0x05]).srcport = some 8 ∧
    (8 : Nat) ≠ 0 := by
  refine ⟨by decide, by decide, by decide, by decide⟩

/-- Claim C9, amended: for every accepted packet the published source port
is the full 4-bit tag field of byte 3 (tag value plus tag-owner bit 0x08),
and the destination port is that same value with the tag-owner bit
flipped. -/
theorem C9_amended_ports (t : ReassemblyTable) (tvb : List Nat)
    (hacc : accepted tvb) :
    (dissect_mctp t tvb).srcport = some ((tvb.getD 3 0) &&& 0x0f) ∧
    (dissect_mctp t tvb).destport =
      some (((tvb.getD 3 0) &&& 0x0f) ^^^ 0x08) := by
  obtain ⟨hlen, hver⟩ := hacc
  unfold dissect_mctp
  simp only [List.getD_eq_getElem?_getD] at hver ⊢
  by_cases hfl : (tvb[3]?.getD 0) &&& 0xc0 = 0xc0 <;>
    simp [Nat.not_lt.mpr hlen, hver, hfl]

/-- Witness for C9 (amended) on the packet `01 08 09 C8 05`. -/
theorem C9_amended_ports_witness :
    (dissect_mctp emptyTable [0x01, 0x08, 0x09, 0xC8, 0x05]).srcport
      = some ((([0x01, 0x08, 0x09, 0xC8, 0x05] : List Nat).getD 3 0) &&& 0x0f) ∧
    (dissect_mctp emptyTable [0x01, 0x08, 0x09, 0xC8, 0x05]).destport
      = some (((([0x01, 0x08, 0x09, 0xC8, 0x05] : List Nat).getD 3 0) &&& 0x0f)
          ^^^ 0x08) :=
  C9_amended_ports emptyTable [0x01, 0x08, 0x09, 0xC8, 0x05] (by decide)

theorem or_top_bit_and_low7 (b : Nat) : (b ||| 0x80) &&& 0x7f = b &&& 0x7f := by
  apply Nat.eq_of_testBit_eq
  intro i
  simp only [Nat.testBit_and, Nat.testBit_or]
  rcases Nat.lt_or_ge i 7 with h | h
  · have h128 : Nat.testBit 0x80 i = false := by interval_cases i <;> decide
    simp [h128]
  · have h127 : Nat.testBit 0x7f i = false := by
      have hlt : (0x7f : Nat) < 2 ^ i :=
        lt_of_lt_of_le (by norm_num) (Nat.pow_le_pow_right (by norm_num) h)
      exact Nat.testBit_lt_two_pow hlt
    simp [h127]

/-- Counterexample to claim C6 as stated: for the self-contained packet
`01 08 09 C0 05 AA` the handler for type 5 is invoked with the whole
message buffer `05 AA` (message-type byte included), not with the buffer
minus that first byte (`AA`). -/
theorem C6_counterexample :
    (dissect_mctp emptyTable [0x01, 0x08, 0x09, 0xC0, 0x05, 0xAA]).dispatched
      = some (0x05, [0x05, 0xAA]) ∧
    ([0x05, 0xAA] : List Nat) ≠ [0xAA] := by
  refine ⟨by decide, by decide⟩

/-- Claim C6, amended: whenever Dispatch invokes a handler, the handler
selected is the one for the low 7 bits of the first byte of the complete
message (so a type byte b and b|0x80 select the same handler), and the
buffer handed to the handler is the complete message itself, including
the message-type byte (for a self-contained packet: the buffer minus the
4 header bytes). -/
theorem C6_amended_dispatch (t : ReassemblyTable) (tvb : List Nat)
    (ty : Nat) (buf : List Nat)
    (h : (dissect_mctp t tvb).dispatched = some (ty, buf)) :
    ty = (buf.getD 0 0) &&& 0x7f ∧
    ((buf.getD 0 0) ||| 0x80) &&& 0x7f = ty ∧
    ((tvb.getD 3 0) &&& 0xc0 = 0xc0 → ¬ (dissect_mctp t tvb).malformed
      → buf = tvb.drop 4) := by
  have hty : ty = (buf.getD 0 0) &&& 0x7f ∧
      ((tvb.getD 3 0) &&& 0xc0 = 0xc0 → ¬ (dissect_mctp t tvb).malformed
        → buf = tvb.drop 4) := by
    unfold dissect_mctp at h ⊢
    dsimp only at h ⊢
    split at h
    · simp at h
    · split at h
      · simp at h
      · split at h
        · rename_i hfrag
          rw [Option.map_eq_some'] at h
          obtain ⟨m, _, hm⟩ := h
          injection hm with hm1 hm2
          subst hm2
          subst hm1
          refine ⟨rfl, fun hboth _ => ?_⟩
          simp only [List.getD_eq_getElem?_getD] at hboth hfrag
          exact absurd hboth hfrag
        · injection h with h
          injection h with hm1 hm2
          subst hm2
          subst hm1
          exact ⟨rfl, fun _ _ => rfl⟩
  exact ⟨hty.1, by rw [hty.1, or_top_bit_and_low7], hty.2⟩

/-- Witness for C6 (amended) on the self-contained packet
`01 08 09 C0 05 AA`. -/
theorem C6_amended_dispatch_witness :
    (0x05 : Nat) = (([0x05, 0xAA] : List Nat).getD 0 0) &&& 0x7f ∧
    ((([0x05, 0xAA] : List Nat).getD 0 0) ||| 0x80) &&& 0x7f = 0x05 ∧
    ((([0x01, 0x08, 0x09, 0xC0, 0x05, 0xAA] : List Nat).getD 3 0) &&& 0xc0
        = 0xc0 →
      ¬ (dissect_mctp emptyTable [0x01, 0x08, 0x09, 0xC0, 0x05, 0xAA]).malformed
      → ([0x05, 0xAA] : List Nat)
        = ([0x01, 0x08, 0x09, 0xC0, 0x05, 0xAA] : List Nat).drop 4) :=
  C6_amended_dispatch emptyTable [0x01, 0x08, 0x09, 0xC0, 0x05, 0xAA]
    0x05 [0x05, 0xAA] (by decide)

theorem fragment_add_seq_next_other (t : ReassemblyTable) (s d i : Nat)
    (p : List Nat) (mf : Bool) (k : FlowKey) (hk : k ≠ ⟨s, d, i⟩) :
    (fragment_add_seq_next t s d i p mf).1 k = t k := by
  unfold fragment_add_seq_next
  cases mf <;> simp [hk]

theorem fragment_add_seq_next_key (t : ReassemblyTable) (s d i : Nat)
    (p : List Nat) (mf : Bool) :
    (fragment_add_seq_next t s d i p mf).1 ⟨s, d, i⟩ =
      if mf then t ⟨s, d, i⟩ ++ [p] else [] := by
  unfold fragment_add_seq_next
  cases mf <;> simp

theorem fragment_add_seq_next_msg (t : ReassemblyTable) (s d i : Nat)
    (p : List Nat) (mf : Bool) :
    (fragment_add_seq_next t s d i p mf).2 =
      if mf then none else some ((t ⟨s, d, i⟩ ++ [p]).flatten) := by
  unfold fragment_add_seq_next
  cases mf <;> simp

/-- Characterization of `dissect_mctp` on a packet handled as a fragment:
the packet is handed to the reassembly engine under its flow key, with
the bytes from offset 4 as payload and `more_frags` true exactly when the
EOM bit is clear. -/
theorem dissect_fragment_step (t : ReassemblyTable) (tvb : List Nat)
    (k : FlowKey) (hk : fragKey tvb = some k) :
    dissect_mctp t tvb =
      { ret := tvb.length, malformed := false,
        table := (fragment_add_seq_next t k.src k.dst k.id (tvb.drop 4)
          (((tvb.getD 3 0) &&& 0x40) == 0)).1,
        dispatched := ((fragment_add_seq_next t k.src k.dst k.id (tvb.drop 4)
          (((tvb.getD 3 0) &&& 0x40) == 0)).2).map
            (fun m => ((m.getD 0 0) &&& 0x7f, m)),
        srcport := some ((tvb.getD 3 0) &&& 0x0f),
        destport := some (((tvb.getD 3 0) &&& 0x0f) ^^^ 0x08) } := by
  unfold fragKey at hk
  split at hk
  · rename_i hcond
    obtain ⟨⟨hlen, hver⟩, hfl⟩ := hcond
    injection hk with hk
    subst hk
    unfold dissect_mctp
    simp only [List.getD_eq_getElem?_getD] at hver hfl ⊢
    simp [Nat.not_lt.mpr hlen, hver, hfl]
  · exact absurd hk (by simp)

/-- A packet not handled as a fragment (malformed, or self-contained with
both SOM and EOM set) leaves the reassembly mapping untouched. -/
theorem dissect_nonfragment_table (t : ReassemblyTable) (tvb : List Nat)
    (hk : fragKey tvb = none) : (dissect_mctp t tvb).table = t := by
  unfold fragKey at hk
  split at hk
  · exact absurd hk (by simp)
  · rename_i hcond
    by_cases hlen : tvb.length < MCTP_MIN_LENGTH
    · unfold dissect_mctp
      simp [hlen]
    · by_cases hver : (tvb.getD 0 0) &&& 0x0f = 1
      · have hfl : (tvb.getD 3 0) &&& 0xc0 = 0xc0 := by
          by_contra hne
          exact hcond ⟨⟨Nat.le_of_not_lt hlen, hver⟩, hne⟩
        unfold dissect_mctp
        simp only [List.getD_eq_getElem?_getD] at hver hfl ⊢
        simp [hlen, hver, hfl]
      · unfold dissect_mctp
        simp only [List.getD_eq_getElem?_getD] at hver ⊢
        simp [hlen, hver]

theorem dissect_fragment_other (t : ReassemblyTable) (tvb : List Nat)
    (j k : FlowKey) (hk : fragKey tvb = some j) (hne : k ≠ j) :
    (dissect_mctp t tvb).table k = t k := by
  rw [dissect_fragment_step t tvb j hk]
  exact fragment_add_seq_next_other t j.src j.dst j.id (tvb.drop 4)
    (((tvb.getD 3 0) &&& 0x40) == 0) k hne

/-- The effect of a fragment packet on its own key, and the dispatch it
performs, depend only on the table entry at that key. -/
theorem dissect_fragment_agree (t t' : ReassemblyTable) (tvb : List Nat)
    (k : FlowKey) (hk : fragKey tvb = some k) (hagree : t k = t' k) :
    (dissect_mctp t tvb).dispatched = (dissect_mctp t' tvb).dispatched ∧
    (dissect_mctp t tvb).table k = (dissect_mctp t' tvb).table k := by
  rw [dissect_fragment_step t tvb k hk, dissect_fragment_step t' tvb k hk]
  dsimp only
  have heta : (⟨k.src, k.dst, k.id⟩ : FlowKey) = k := rfl
  constructor
  · rw [fragment_add_seq_next_msg, fragment_add_seq_next_msg, heta, hagree]
  · rw [show (fragment_add_seq_next t k.src k.dst k.id (tvb.drop 4)
        (((tvb.getD 3 0) &&& 0x40) == 0)).1 k =
        (fragment_add_seq_next t k.src k.dst k.id (tvb.drop 4)
        (((tvb.getD 3 0) &&& 0x40) == 0)).1 ⟨k.src, k.dst, k.id⟩ from rfl,
      show (fragment_add_seq_next t' k.src k.dst k.id (tvb.drop 4)
        (((tvb.getD 3 0) &&& 0x40) == 0)).1 k =
        (fragment_add_seq_next t' k.src k.dst k.id (tvb.drop 4)
        (((tvb.getD 3 0) &&& 0x40) == 0)).1 ⟨k.src, k.dst, k.id⟩ from rfl,
      fragment_add_seq_next_key, fragment_add_seq_next_key, heta, hagree]

/-- Claim C10: a fragment packet whose flow key has no active reassembly
state gets state created regardless of the SOM bit; in particular a
fragment with EOM set and no prior state on its key immediately completes
and dispatches a message that is exactly its own payload. -/
theorem C10_fragment_without_prior_state (t : ReassemblyTable)
    (tvb : List Nat) (k : FlowKey) (hk : fragKey tvb = some k)
    (hempty : t k = []) :
    ((((tvb.getD 3 0) &&& 0x40) = 0 →
      (dissect_mctp t tvb).table k = [tvb.drop 4] ∧
      (dissect_mctp t tvb).dispatched = none) ∧
     (((tvb.getD 3 0) &&& 0x40) ≠ 0 →
      (dissect_mctp t tvb).dispatched =
        some (((tvb.drop 4).getD 0 0) &&& 0x7f, tvb.drop 4) ∧
      (dissect_mctp t tvb).table k = [])) := by
  rw [dissect_fragment_step t tvb k hk]
  dsimp only
  have heta : (⟨k.src, k.dst, k.id⟩ : FlowKey) = k := rfl
  have htab : ∀ mf, (fragment_add_seq_next t k.src k.dst k.id
      (tvb.drop 4) mf).1 k = if mf then t k ++ [tvb.drop 4] else [] := by
    intro mf
    rw [show (fragment_add_seq_next t k.src k.dst k.id (tvb.drop 4) mf).1 k =
      (fragment_add_seq_next t k.src k.dst k.id (tvb.drop 4) mf).1
        ⟨k.src, k.dst, k.id⟩ from rfl, fragment_add_seq_next_key, heta]
  constructor
  · intro heom
    have hbt : (((tvb.getD 3 0) &&& 0x40) == 0) = true := by rw [heom]; rfl
    rw [hbt, htab, fragment_add_seq_next_msg, heta, hempty]
    simp
  · intro heom
    have hbf : (((tvb.getD 3 0) &&& 0x40) == 0) = false :=
      beq_eq_false_iff_ne.mpr heom
    rw [hbf, htab, fragment_add_seq_next_msg, heta, hempty]
    simp

/-- Witness for C10: the EOM-only fragment `pktEom` on a fresh key. -/
theorem C10_fragment_without_prior_state_witness :
    (((pktEom.getD 3 0) &&& 0x40) = 0 →
      (dissect_mctp emptyTable pktEom).table keyA = [pktEom.drop 4] ∧
      (dissect_mctp emptyTable pktEom).dispatched = none) ∧
    (((pktEom.getD 3 0) &&& 0x40) ≠ 0 →
      (dissect_mctp emptyTable pktEom).dispatched =
        some (((pktEom.drop 4).getD 0 0) &&& 0x7f, pktEom.drop 4) ∧
      (dissect_mctp emptyTable pktEom).table keyA = []) :=
  C10_fragment_without_prior_state emptyTable pktEom keyA (by decide) rfl

/-- Counterexample to claim C4 as stated: after the SOM fragment
`01 08 09 80 AA A1` creates active incomplete state on key (9, 8, 0), a
second SOM fragment `01 08 09 80 BB B1` on the same key does not discard
it; the message completed by the EOM fragment `01 08 09 40 CC` still
carries the first fragment's payload bytes AA A1. -/
theorem C4_counterexample :
    (dissect_mctp emptyTable [0x01, 0x08, 0x09, 0x80, 0xAA, 0xA1]).table
        ⟨0x09, 0x08, 0⟩ = [[0xAA, 0xA1]] ∧
    (([0x01, 0x08, 0x09, 0x80, 0xBB, 0xB1] : List Nat).getD 3 0) &&& 0x80
        ≠ 0 ∧
    (processPackets emptyTable
      [[0x01, 0x08, 0x09, 0x80, 0xAA, 0xA1],
       [0x01, 0x08, 0x09, 0x80, 0xBB, 0xB1],
       [0x01, 0x08, 0x09, 0x40, 0xCC]]).2
      = [(0x2A, [0xAA, 0xA1, 0xBB, 0xB1, 0xCC])] ∧
    (0xAA : Nat) ∈ [0xAA, 0xA1, 0xBB, 0xB1, 0xCC] := by
  refine ⟨by decide, by decide, by decide, by decide⟩

/-- Claim C4, amended: a start-of-message fragment arriving on a flow key
with an active incomplete reassembly does not restart it (the engine is
never told about the SOM bit): the old partial state is retained and the
SOM fragment is appended to it, and the message completed by a later EOM
fragment on that key still contains every previously buffered payload, as
a prefix. -/
theorem C4_amended_som_does_not_restart (t : ReassemblyTable)
    (tvb tvb2 : List Nat) (k : FlowKey)
    (hk : fragKey tvb = some k) ( _hsom : (tvb.getD 3 0) &&& 0x80 ≠ 0)
    (heom : (tvb.getD 3 0) &&& 0x40 = 0)
    (hk2 : fragKey tvb2 = some k) (heom2 : (tvb2.getD 3 0) &&& 0x40 ≠ 0) :
    (dissect_mctp t tvb).table k = t k ++ [tvb.drop 4] ∧
    (dissect_mctp (dissect_mctp t tvb).table tvb2).dispatched =
      some ((((t k ++ [tvb.drop 4] ++ [tvb2.drop 4]).flatten).getD 0 0)
          &&& 0x7f,
        (t k ++ [tvb.drop 4] ++ [tvb2.drop 4]).flatten) := by
  have heta : (⟨k.src, k.dst, k.id⟩ : FlowKey) = k := rfl
  have h1 : (dissect_mctp t tvb).table k = t k ++ [tvb.drop 4] := by
    rw [dissect_fragment_step t tvb k hk]
    dsimp only
    have hbt : (((tvb.getD 3 0) &&& 0x40) == 0) = true := by rw [heom]; rfl
    rw [hbt, show (fragment_add_seq_next t k.src k.dst k.id (tvb.drop 4)
        true).1 k =
      (fragment_add_seq_next t k.src k.dst k.id (tvb.drop 4) true).1
        ⟨k.src, k.dst, k.id⟩ from rfl, fragment_add_seq_next_key, heta]
    simp
  refine ⟨h1, ?_⟩
  rw [dissect_fragment_step _ tvb2 k hk2]
  dsimp only
  have hbf : (((tvb2.getD 3 0) &&& 0x40) == 0) = false :=
    beq_eq_false_iff_ne.mpr heom2
  rw [hbf, fragment_add_seq_next_msg, heta, h1]
  simp

/-- Witness for C4 (amended): the SOM fragment `pktSom` then the EOM
fragment `pktEnd`, on a key already holding the partial payload `AA`. -/
theorem C4_amended_som_does_not_restart_witness :
    (dissect_mctp tblA pktSom).table keyA = tblA keyA ++ [pktSom.drop 4] ∧
    (dissect_mctp (dissect_mctp tblA pktSom).table pktEnd).dispatched =
      some ((((tblA keyA ++ [pktSom.drop 4] ++ [pktEnd.drop 4]).flatten).getD
          0 0) &&& 0x7f,
        (tblA keyA ++ [pktSom.drop 4] ++ [pktEnd.drop 4]).flatten) :=
  C4_amended_som_does_not_restart tblA pktSom pktEnd keyA (by decide)
    (by decide) (by decide) (by decide) (by decide)

/-- Flow separation: the dispatches produced by the key-`k` fragments of a
capture, and the final reassembly state at `k`, are exactly those of a run
that sees only the key-`k` fragment packets; packets of other keys, and
packets not handled as fragments, cannot influence them. -/
theorem processPackets_key_separation (k : FlowKey) (pkts : List (List Nat)) :
    ∀ (t t' : ReassemblyTable), t k = t' k →
    dispatchesForKey k t pkts =
      (processPackets t'
        (pkts.filter (fun p => decide (fragKey p = some k)))).2 ∧
    (processPackets t pkts).1 k =
      (processPackets t'
        (pkts.filter (fun p => decide (fragKey p = some k)))).1 k := by
  induction pkts with
  | nil => exact fun t t' hagree => ⟨rfl, hagree⟩
  | cons tvb rest ih =>
    intro t t' hagree
    by_cases hc : fragKey tvb = some k
    · have hfilter :
          (tvb :: rest).filter (fun p => decide (fragKey p = some k))
          = tvb :: rest.filter (fun p => decide (fragKey p = some k)) := by
        simp [List.filter_cons, hc]
      have hd := dissect_fragment_agree t t' tvb k hc hagree
      have IH := ih (dissect_mctp t tvb).table (dissect_mctp t' tvb).table hd.2
      rw [hfilter]
      constructor
      · show (if fragKey tvb = some k then
              (dissect_mctp t tvb).dispatched.toList else []) ++
            dispatchesForKey k (dissect_mctp t tvb).table rest = _
        rw [if_pos hc, hd.1]
        show _ = (dissect_mctp t' tvb).dispatched.toList ++
          (processPackets (dissect_mctp t' tvb).table
            (rest.filter (fun p => decide (fragKey p = some k)))).2
        rw [IH.1]
      · show (processPackets (dissect_mctp t tvb).table rest).1 k = _
        rw [IH.2]
        rfl
    · have hfilter :
          (tvb :: rest).filter (fun p => decide (fragKey p = some k))
          = rest.filter (fun p => decide (fragKey p = some k)) := by
        simp [List.filter_cons, hc]
      have htk : (dissect_mctp t tvb).table k = t k := by
        cases hfk : fragKey tvb with
        | none => rw [dissect_nonfragment_table t tvb hfk]
        | some j =>
          have hne : k ≠ j := fun he => hc (by rw [hfk, he])
          exact dissect_fragment_other t tvb j k hfk hne
      have IH := ih (dissect_mctp t tvb).table t' (htk.trans hagree)
      rw [hfilter]
      constructor
      · show (if fragKey tvb = some k then
              (dissect_mctp t tvb).dispatched.toList else []) ++
            dispatchesForKey k (dissect_mctp t tvb).table rest = _
        rw [if_neg hc, List.nil_append, IH.1]
      · show (processPackets (dissect_mctp t tvb).table rest).1 k = _
        rw [IH.2]

/-- Counterexample to claim C1 as stated: the packets `01 08 09 80 AA` and
`01 08 09 48 05 BB` decode to headers with opposite tag-owner bits (so
their claimed four-component keys differ, and as 4-bit tags their flows
are distinct), yet the reassembly engine is handed the same key for both
(the call site masks the id with 0x7, dropping the tag-owner bit), and
their payloads are concatenated into one reconstructed message. -/
theorem C1_counterexample :
    (decodeHeader [0x01, 0x08, 0x09, 0x80, 0xAA]).tag_to = false ∧
    (decodeHeader [0x01, 0x08, 0x09, 0x48, 0x05, 0xBB]).tag_to = true ∧
    (decodeHeader [0x01, 0x08, 0x09, 0x80, 0xAA]).src
      = (decodeHeader [0x01, 0x08, 0x09, 0x48, 0x05, 0xBB]).src ∧
    (decodeHeader [0x01, 0x08, 0x09, 0x80, 0xAA]).dst
      = (decodeHeader [0x01, 0x08, 0x09, 0x48, 0x05, 0xBB]).dst ∧
    (decodeHeader [0x01, 0x08, 0x09, 0x80, 0xAA]).tag
      = (decodeHeader [0x01, 0x08, 0x09, 0x48, 0x05, 0xBB]).tag ∧
    fragKey [0x01, 0x08, 0x09, 0x80, 0xAA]
      = fragKey [0x01, 0x08, 0x09, 0x48, 0x05, 0xBB] ∧
    (processPackets emptyTable
      [[0x01, 0x08, 0x09, 0x80, 0xAA],
       [0x01, 0x08, 0x09, 0x48, 0x05, 0xBB]]).2
      = [(0x2A, [0xAA, 0x05, 0xBB])] := by
  refine ⟨by decide, by decide, by decide, by decide, by decide, by decide,
    by decide⟩

/-- Claim C1, amended: the reassembly state a fragment packet is
correlated with is identified by (source_address, destination_address,
tag_value) only — the tag-owner bit is not part of the key.  Two fragment
packets update the same state iff those three components match, and flows
with distinct (source, destination, tag_value) triples are fully
separated: the dispatches and final state of a key are exactly those of a
run seeing only that key's fragments. -/
theorem C1_amended_flow_key_separation (k : FlowKey)
    (pkts : List (List Nat)) (t t' : ReassemblyTable) (hagree : t k = t' k) :
    (∀ tvb1 tvb2 k1 k2, fragKey tvb1 = some k1 → fragKey tvb2 = some k2 →
      (k1 = k2 ↔ (tvb1.getD 2 0 = tvb2.getD 2 0 ∧
        tvb1.getD 1 0 = tvb2.getD 1 0 ∧
        (tvb1.getD 3 0) &&& 0x07 = (tvb2.getD 3 0) &&& 0x07))) ∧
    dispatchesForKey k t pkts =
      (processPackets t'
        (pkts.filter (fun p => decide (fragKey p = some k)))).2 ∧
    (processPackets t pkts).1 k =
      (processPackets t'
        (pkts.filter (fun p => decide (fragKey p = some k)))).1 k := by
  refine ⟨?_, (processPackets_key_separation k pkts t t' hagree).1,
    (processPackets_key_separation k pkts t t' hagree).2⟩
  intro tvb1 tvb2 k1 k2 h1 h2
  unfold fragKey at h1 h2
  split at h1
  · injection h1 with h1
    split at h2
    · injection h2 with h2
      subst h1
      subst h2
      constructor
      · intro he
        injection he with e1 e2 e3
        exact ⟨e1, e2, e3⟩
      · rintro ⟨e1, e2, e3⟩
        rw [e1, e2, e3]
    · exact absurd h2 (by simp)
  · exact absurd h1 (by simp)

/-- Witness for C1 (amended) on the two-fragment capture
`pktSom, pktEnd` with key `keyA`. -/
theorem C1_amended_flow_key_separation_witness :
    (∀ tvb1 tvb2 k1 k2, fragKey tvb1 = some k1 → fragKey tvb2 = some k2 →
      (k1 = k2 ↔ (tvb1.getD 2 0 = tvb2.getD 2 0 ∧
        tvb1.getD 1 0 = tvb2.getD 1 0 ∧
        (tvb1.getD 3 0) &&& 0x07 = (tvb2.getD 3 0) &&& 0x07))) ∧
    dispatchesForKey keyA emptyTable [pktSom, pktEnd] =
      (processPackets emptyTable
        ([pktSom, pktEnd].filter
          (fun p => decide (fragKey p = some keyA)))).2 ∧
    (processPackets emptyTable [pktSom, pktEnd]).1 keyA =
      (processPackets emptyTable
        ([pktSom, pktEnd].filter
          (fun p => decide (fragKey p = some keyA)))).1 keyA :=
  C1_amended_flow_key_separation keyA [pktSom, pktEnd] emptyTable emptyTable
    rfl

set_option maxRecDepth 4096 in
theorem encodeFlagsByte_masks : ∀ s, s < 4 → ∀ tg, tg < 8 →
    ∀ som eom owner : Bool,
    (encodeFlagsByte som eom s owner tg) &&& 0xc0
      = (cond som 0x80 0) + (cond eom 0x40 0) ∧
    (encodeFlagsByte som eom s owner tg) &&& 0x40 = cond eom 0x40 0 ∧
    (encodeFlagsByte som eom s owner tg) &&& 0x07 = tg ∧
    (encodeFlagsByte som eom s owner tg) &&& 0x0f
      = (cond owner 0x08 0) + tg := by
  decide

/-- A well-formed constructed fragment packet (version 1, nonempty
payload, not both SOM and EOM) is handled under key
(source, destination, tag value). -/
theorem fragKey_mk (dst src tag : Nat) (som eom owner : Bool) (s : Nat)
    (P : List Nat) (htag : tag < 8) (hs : s < 4) (hP : P ≠ [])
    (hne : som = false ∨ eom = false) :
    fragKey (0x01 :: dst :: src :: encodeFlagsByte som eom s owner tag :: P)
      = some ⟨src, dst, tag⟩ := by
  obtain ⟨hc, h40, h7, h0f⟩ := encodeFlagsByte_masks s hs tag htag som eom owner
  have hflne : (encodeFlagsByte som eom s owner tag) &&& 0xc0 ≠ 0xc0 := by
    rw [hc]
    rcases hne with h | h
    · subst h; cases eom <;> decide
    · subst h; cases som <;> decide
  have hlen : MCTP_MIN_LENGTH ≤ (0x01 :: dst :: src ::
      encodeFlagsByte som eom s owner tag :: P).length := by
    have := List.length_pos.mpr hP
    simp only [List.length_cons, MCTP_MIN_LENGTH]
    omega
  unfold fragKey
  rw [if_pos]
  · show some (⟨src, dst,
      (encodeFlagsByte som eom s owner tag) &&& 0x7⟩ : FlowKey) = _
    rw [h7]
  · refine ⟨⟨hlen, ?_⟩, hflne⟩
    show (0x01 : Nat) &&& 0x0f = 1
    rfl

/-- Full reduction of `dissect_mctp` on a constructed fragment packet. -/
theorem dissect_mk_step (t : ReassemblyTable) (dst src tag : Nat)
    (som eom owner : Bool) (s : Nat) (P : List Nat)
    (htag : tag < 8) (hs : s < 4) (hP : P ≠ [])
    (hne : som = false ∨ eom = false) :
    dissect_mctp t
        (0x01 :: dst :: src :: encodeFlagsByte som eom s owner tag :: P)
      = { ret := (0x01 :: dst :: src ::
            encodeFlagsByte som eom s owner tag :: P).length,
          malformed := false,
          table := (fragment_add_seq_next t src dst tag P (!eom)).1,
          dispatched := ((fragment_add_seq_next t src dst tag P (!eom)).2).map
            (fun m => ((m.getD 0 0) &&& 0x7f, m)),
          srcport := some ((cond owner 0x08 0) + tag),
          destport := some (((cond owner 0x08 0) + tag) ^^^ 0x08) } := by
  have hk := fragKey_mk dst src tag som eom owner s P htag hs hP hne
  rw [dissect_fragment_step t _ ⟨src, dst, tag⟩ hk]
  obtain ⟨hc, h40, h7, h0f⟩ := encodeFlagsByte_masks s hs tag htag som eom owner
  have hgd : (0x01 :: dst :: src ::
      encodeFlagsByte som eom s owner tag :: P).getD 3 0
      = encodeFlagsByte som eom s owner tag := rfl
  have hdrop : (0x01 :: dst :: src ::
      encodeFlagsByte som eom s owner tag :: P).drop 4 = P := rfl
  rw [hgd, hdrop]
  have hb : ((encodeFlagsByte som eom s owner tag) &&& 0x40 == 0) = !eom := by
    rw [h40]; cases eom <;> rfl
  rw [hb, h0f]

/-- Claim C2: a flow receiving four fragments flagged [SOM, -, -, EOM]
with payloads A, B, C, D in that arrival order dispatches, on the EOM
fragment, exactly the reconstructed message A ++ B ++ C ++ D, whatever
2-bit sequence values the four fragments carry: arrival order alone
determines the concatenation order. -/
theorem C2_arrival_order_concatenation (t : ReassemblyTable)
    (dst src tag : Nat) (owner : Bool) (s1 s2 s3 s4 : Nat)
    (A B C D : List Nat)
    (htag : tag < 8) (h1 : s1 < 4) (h2 : s2 < 4) (h3 : s3 < 4) (h4 : s4 < 4)
    (hA : A ≠ []) (hB : B ≠ []) (hC : C ≠ []) (hD : D ≠ [])
    (hkey : t ⟨src, dst, tag⟩ = []) :
    (processPackets t
      [0x01 :: dst :: src :: encodeFlagsByte true false s1 owner tag :: A,
       0x01 :: dst :: src :: encodeFlagsByte false false s2 owner tag :: B,
       0x01 :: dst :: src :: encodeFlagsByte false false s3 owner tag :: C,
       0x01 :: dst :: src :: encodeFlagsByte false true s4 owner tag :: D]).2
      = [(((A ++ (B ++ (C ++ D))).getD 0 0) &&& 0x7f,
          A ++ (B ++ (C ++ D)))] := by
  simp only [processPackets]
  rw [dissect_mk_step t dst src tag true false owner s1 A htag h1 hA
    (Or.inr rfl)]
  dsimp only
  rw [dissect_mk_step _ dst src tag false false owner s2 B htag h2 hB
    (Or.inl rfl)]
  dsimp only
  rw [dissect_mk_step _ dst src tag false false owner s3 C htag h3 hC
    (Or.inl rfl)]
  dsimp only
  rw [dissect_mk_step _ dst src tag false true owner s4 D htag h4 hD
    (Or.inl rfl)]
  dsimp only
  rw [fragment_add_seq_next_msg, fragment_add_seq_next_msg,
    fragment_add_seq_next_msg, fragment_add_seq_next_msg]
  simp
  rw [fragment_add_seq_next_key, fragment_add_seq_next_key,
    fragment_add_seq_next_key, hkey]
  simp

/-- Witness for C2: payloads `05 01`, `02`, `03`, `04` with sequence
values 3, 1, 3, 2 (deliberately not in numeric order). -/
theorem C2_arrival_order_concatenation_witness :
    (processPackets emptyTable
      [0x01 :: 0x08 :: 0x09 ::
          encodeFlagsByte true false 3 false 0 :: [0x05, 0x01],
       0x01 :: 0x08 :: 0x09 ::
          encodeFlagsByte false false 1 false 0 :: [0x02],
       0x01 :: 0x08 :: 0x09 ::
          encodeFlagsByte false false 3 false 0 :: [0x03],
       0x01 :: 0x08 :: 0x09 ::
          encodeFlagsByte false true 2 false 0 :: [0x04]]).2
      = [((([0x05, 0x01] ++ ([0x02] ++ ([0x03] ++ [0x04]))).getD 0 0)
            &&& 0x7f,
          [0x05, 0x01] ++ ([0x02] ++ ([0x03] ++ [0x04])))] :=
  C2_arrival_order_concatenation emptyTable 0x08 0x09 0 false 3 1 3 2
    [0x05, 0x01] [0x02] [0x03] [0x04] (by decide) (by decide) (by decide)
    (by decide) (by decide) (by decide) (by decide) (by decide) (by decide)
    rfl

end MCTP
